import Mathlib

/-!
Verification of the FlexibleDate library (src/FlexibleDate/FlexibleDate.py).

Strings are embedded as `List Char`.  Python floats are embedded as `ℚ`
(every numeric literal in the scoring code is a decimal constant, and all
arithmetic here is exact in the claims considered).  Python `None` for an
optional integer field is `Option Int`.  Fallible Python code (pydantic
validation, the explicit `raise`) is embedded with `Except`.

The external collaborators (the `dateutil` parser, the `unidecode`
transliterator, and the current calendar year) are out-of-scope
collaborators specified only by interface in the design; they are passed
explicitly as an `Env` record, and every theorem quantifies over them.
-/

/-- Converts a string literal to the character-list representation used
throughout this development. -/
def str (s : String) : List Char := s.data

/-- Model of the pydantic value object `FlexibleDate` (FlexibleDate.py lines
9-81): three optional integer fields `likelyYear`, `likelyMonth`,
`likelyDay`, each defaulting to absent. -/
structure FlexibleDate where
  likelyYear : Option Int := none
  likelyMonth : Option Int := none
  likelyDay : Option Int := none
  deriving DecidableEq, Repr

/-- The all-absent FlexibleDate. -/
def allAbsent : FlexibleDate := ⟨none, none, none⟩

/-- The year banding table of `compareTwoDates` (lines 102-107).  The final
`(float('-inf'), 0.1)` row of the Python list is represented by the
catch-all base case of `firstMultiplier` below, since `ℚ` has no minus
infinity; the behaviour (that row matches every average date) is identical. -/
def rangesAndMultipliers : List (ℚ × ℚ) :=
  [(1980, 10), (1970, 8), (1960, 13/2), (1950, 5), (1940, 9/2), (1930, 4),
   (1920, 7/2), (1910, 3), (1900, 5/2), (1890, 1), (1850, 3/5),
   (1800, 1/2), (1700, 9/20), (1600, 2/5), (1500, 7/20), (1400, 3/10),
   (1300, 1/4), (1200, 1/5), (1100, 3/20)]

/-- The band-selection loop of lines 108-112: the first row whose threshold
year is at most the average date gives the multiplier (`continue` skips rows
with `averageDate < year`); the `-inf` row, i.e. the base case, catches
everything else. -/
def firstMultiplier (avg : ℚ) : List (ℚ × ℚ) → ℚ
  | [] => 1/10
  | (y, m) :: rest => if avg < y then firstMultiplier avg rest else m

/-- The year contribution of `compareTwoDates` (lines 99-112), for the case
that both years are present. -/
def yearContrib (y1 y2 : Int) : ℚ :=
  let difYears : Int := |y1 - y2|
  let averageDate : ℚ := ((y1 : ℚ) + (y2 : ℚ)) / 2
  20 - (difYears : ℚ) * firstMultiplier averageDate rangesAndMultipliers

/-- The month contribution of `compareTwoDates` (lines 114-128), for the case
that both months are present.  The source computes a wraparound distance
(`min(directDif, wrapAroundDif)`) whose value is discarded; it is kept here
as an unused binding for fidelity. -/
def monthContrib (m1 m2 : Int) : ℚ :=
  let directDif : Int := |m1 - m2|
  let wrapAroundDif : Int := 12 - directDif
  let _wrapMin : Int := min directDif wrapAroundDif
  let difMonths : Int := |m1 - m2|
  if difMonths = 0 then 5
  else if difMonths = 1 then 3
  else if difMonths = 2 then 1
  else if difMonths = 3 then 0
  else -(difMonths : ℚ)

/-- The wraparound day distance `difDays` of lines 131-133 (`30.4 = 152/5`). -/
def difDaysVal (d1 d2 : Int) : ℚ :=
  let directDif : Int := |d1 - d2|
  let wrapAroundDif : ℚ := 152/5 - (directDif : ℚ)
  min (directDif : ℚ) wrapAroundDif

/-- The day contribution of `compareTwoDates` (lines 130-134), for the case
that both days are present. -/
def dayContrib (d1 d2 : Int) : ℚ :=
  (10 - difDaysVal d1 d2 * 3) / 2

/-- Applies a two-argument contribution when both optional fields are
present, else contributes nothing (the `if xInBoth:` guards of the source). -/
def pairDo (x y : Option Int) (f : Int → Int → ℚ) : ℚ :=
  match x, y with
  | some u, some v => f u v
  | _, _ => 0

/-- The `monthInBoth and yearInBoth` exact-match bonus of lines 136-138. -/
def bonusYM (y1 y2 m1 m2 : Option Int) : ℚ :=
  match y1, y2, m1, m2 with
  | some a, some b, some c, some d => if |c - d| = 0 ∧ |a - b| = 0 then 20 else 0
  | _, _, _, _ => 0

/-- The `dayInBoth and monthInBoth` exact-match bonus of lines 139-141 (the
day difference used is the wraparound `difDays` value, as in the source). -/
def bonusDM (m1 m2 d1 d2 : Option Int) : ℚ :=
  match m1, m2, d1, d2 with
  | some a, some b, some c, some d => if difDaysVal c d = 0 ∧ |a - b| = 0 then 20 else 0
  | _, _, _, _ => 0

/-- The all-three exact-match bonus of lines 142-144. -/
def bonusYMD (y1 y2 m1 m2 d1 d2 : Option Int) : ℚ :=
  match y1, y2, m1, m2, d1, d2 with
  | some a, some b, some c, some d, some e, some f =>
    if difDaysVal e f = 0 ∧ |c - d| = 0 ∧ |a - b| = 0 then 20 else 0
  | _, _, _, _, _, _ => 0

/-- Function `compareTwoDates` (lines 83-146): the sequential `score +=` updates are
written as the sum of the individual contributions, each guarded by the
presence of the fields it reads, exactly as in the source. -/
def compareTwoDates (date1 date2 : FlexibleDate) : ℚ :=
  pairDo date1.likelyYear date2.likelyYear yearContrib
  + pairDo date1.likelyMonth date2.likelyMonth monthContrib
  + pairDo date1.likelyDay date2.likelyDay dayContrib
  + bonusYM date1.likelyYear date2.likelyYear date1.likelyMonth date2.likelyMonth
  + bonusDM date1.likelyMonth date2.likelyMonth date1.likelyDay date2.likelyDay
  + bonusYMD date1.likelyYear date2.likelyYear date1.likelyMonth date2.likelyMonth
      date1.likelyDay date2.likelyDay

/-- The month contribution exactly as the table of the specification states it, as
a function of the direct (non-wraparound) absolute month difference. -/
def monthContributionSpec (d : Nat) : ℚ :=
  if d = 0 then 5
  else if d = 1 then 3
  else if d = 2 then 1
  else if d = 3 then 0
  else -(d : ℚ)

/-- A Python value passed to a `FlexibleDate` field: `None`, an `int`, or the
dict literal mapping None to 1 that `_chooseMostReasonableValue` returns when it sees no
non-absent value (line 176). -/
inductive PyVal where
  | vNone
  | vInt (n : Int)
  | vDictNone
  deriving DecidableEq, Repr

/-- The two error kinds of the library: the explicit
explicit `ValueError` of `createFlexibleDate`
(line 206), and a pydantic `ValidationError` from constructing a
`FlexibleDate`. -/
inductive PyErr where
  | invalidArgument
  | validationError
  deriving DecidableEq, Repr

/-- pydantic validation of the `likelyYear` field: the type check rejects a
dict, and the `validateLikelyYear` validator (lines 16-31) rejects years
outside [-100000, 100000]. -/
def checkLikelyYear : PyVal → Except PyErr (Option Int)
  | .vNone => .ok none
  | .vDictNone => .error .validationError
  | .vInt v => if v < -100000 ∨ 100000 < v then .error .validationError else .ok (some v)

/-- pydantic validation of the `likelyMonth` field (lines 33-48). -/
def checkLikelyMonth : PyVal → Except PyErr (Option Int)
  | .vNone => .ok none
  | .vDictNone => .error .validationError
  | .vInt v => if v < 1 ∨ 12 < v then .error .validationError else .ok (some v)

/-- pydantic validation of the `likelyDay` field (lines 50-68). -/
def checkLikelyDay : PyVal → Except PyErr (Option Int)
  | .vNone => .ok none
  | .vDictNone => .error .validationError
  | .vInt v => if v < 1 ∨ 31 < v then .error .validationError else .ok (some v)

/-- Construction `FlexibleDate(likelyYear=..., likelyMonth=..., likelyDay=...)`:
each field is validated (a failure raises `ValidationError`), then the object
is built. -/
def mkFlexibleDate (y m d : PyVal) : Except PyErr FlexibleDate := do
  let likelyYear ← checkLikelyYear y
  let likelyMonth ← checkLikelyMonth m
  let likelyDay ← checkLikelyDay d
  return { likelyYear := likelyYear, likelyMonth := likelyMonth, likelyDay := likelyDay }

/-- The distinct values of a list in order of first occurrence. -/
def distinctFirst : List Int → List Int
  | [] => []
  | a :: t => a :: distinctFirst (t.filter (fun x => x ≠ a))
  termination_by l => l.length
  decreasing_by
    simp only [List.length_cons]
    exact Nat.lt_succ_of_le (t.length_filter_le _)

/-- Semantic model of `collections.Counter(filteredValues)` (line 177): the
distinct values in first-occurrence (insertion) order, each with its
multiplicity. -/
def counterOf (l : List Int) : List (Int × Nat) :=
  (distinctFirst l).map (fun v => (v, l.count v))

/-- The inner confidence accumulation loop of `_chooseMostReasonableValue`
(lines 181-184): starting from the own relative frequency of the value, add the
1.2-weighted, distance-discounted relative frequency of every other counter
entry. -/
def codeConfidence (counter : List (Int × Nat)) (totalCount : ℚ) (vc : Int × Nat) : ℚ :=
  counter.foldl (fun confidence wc =>
    if vc.1 ≠ wc.1 then
      confidence + (6/5) * ((wc.2 : ℚ) / totalCount) / ((1 + |vc.1 - wc.1| : ℤ) : ℚ)
    else confidence) ((vc.2 : ℚ) / totalCount)

/-- The `scores` dict of `_chooseMostReasonableValue` (lines 177-185), as the
insertion-ordered association list of (distinct value, confidence). -/
def codeScores (filteredValues : List Int) : List (Int × ℚ) :=
  let counter := counterOf filteredValues
  let totalCount : ℚ := ((counter.map Prod.snd).sum : ℕ)
  counter.map (fun vc => (vc.1, codeConfidence counter totalCount vc))

/-- One comparison step of Python `max(..., key=...)`: a later item replaces
the current best only when its key value is strictly greater. -/
def pyMaxStep (best x : Int × ℚ) : Int × ℚ :=
  if best.2 < x.2 then x else best

/-- Model of `max(scores, key=scores.get)` (line 186): Python `max` keeps the first
item encountered whose key value is maximal. -/
def pyMaxByVal : List (Int × ℚ) → PyVal
  | [] => .vDictNone
  | s :: rest => .vInt ((rest.foldl pyMaxStep s).1)

/-- Function `_chooseMostReasonableValue` (lines 165-186).  When every value is absent
it returns the dict literal mapping None to 1 (line 176, modelled as
`PyVal.vDictNone`); otherwise it computes a confidence for each distinct
value and takes `max(scores, key=scores.get)`. -/
def chooseMostReasonableValue (values : List (Option Int)) : PyVal :=
  let filteredValues := values.filterMap id
  match filteredValues with
  | [] => .vDictNone
  | _ :: _ => pyMaxByVal (codeScores filteredValues)

/-- Function `combineFlexibleDates` (lines 148-163): choose each field independently
and construct the combined `FlexibleDate`. -/
def combineFlexibleDates (dates : List FlexibleDate) : Except PyErr FlexibleDate :=
  let allYears := dates.map (·.likelyYear)
  let allMonths := dates.map (·.likelyMonth)
  let allDays := dates.map (·.likelyDay)
  let year := chooseMostReasonableValue allYears
  let month := chooseMostReasonableValue allMonths
  let day := chooseMostReasonableValue allDays
  mkFlexibleDate year month day

/-- The confidence formula exactly as the specification states it: the
relative frequency of `v` plus, for every other distinct observed value `w`,
`1.2 x (relative frequency of w) / (1 + |v - w|)`. -/
def specConf (l : List Int) (v : Int) : ℚ :=
  (l.count v : ℚ) / (l.length : ℚ)
  + (((distinctFirst l).filter (fun w => w ≠ v)).map (fun w =>
      (6/5) * ((l.count w : ℚ) / (l.length : ℚ)) / (1 + |(v : ℚ) - (w : ℚ)|))).sum

/-- Python whitespace as used by `str.split`, `str.strip` (ASCII subset:
space, tab, newline, carriage return, vertical tab, form feed). -/
def isPySpace (c : Char) : Bool :=
  c == ' ' || c == '\t' || c == '\n' || c == '\r' || c == Char.ofNat 11 || c == Char.ofNat 12

/-- A Python `\w` word character (ASCII subset: letters, digits, underscore). -/
def isWordChar (c : Char) : Bool :=
  c.isAlpha || c.isDigit || c == '_'

/-- Range test for a character. -/
def between (lo hi c : Char) : Bool :=
  decide (lo ≤ c ∧ c ≤ hi)

/-- Fuelled worker for `splitWs` (each step consumes at least one
character, so a fuel of one more than the length never runs out). -/
def splitWsF : Nat → List Char → List (List Char)
  | 0, _ => []
  | _ + 1, [] => []
  | fuel + 1, c :: rest =>
    if isPySpace c then splitWsF fuel rest
    else
      ((c :: rest).takeWhile (fun x => !isPySpace x))
        :: splitWsF fuel ((c :: rest).dropWhile (fun x => !isPySpace x))

/-- Python `str.split()` without arguments: split on whitespace runs, dropping empty
pieces. -/
def splitWs (l : List Char) : List (List Char) :=
  splitWsF (l.length + 1) l

/-- Python single-space join of a token list. -/
def joinSpace : List (List Char) → List Char
  | [] => []
  | [t] => t
  | t :: rest => t ++ ' ' :: joinSpace rest

/-- Python `str.strip()`: drop leading and trailing whitespace. -/
def pyStrip (l : List Char) : List Char :=
  ((l.dropWhile isPySpace).reverse.dropWhile isPySpace).reverse

/-- Fuelled worker for `replaceAll`. -/
def replaceAllF (pat rep : List Char) : Nat → List Char → List Char
  | 0, l => l
  | _ + 1, [] => []
  | fuel + 1, c :: rest =>
    if !pat.isEmpty && pat.isPrefixOf (c :: rest) then
      rep ++ replaceAllF pat rep fuel ((c :: rest).drop pat.length)
    else
      c :: replaceAllF pat rep fuel rest

/-- Python `str.replace(pat, rep)`: replace every non-overlapping occurrence,
scanning left to right.  (The fuel is one more than the length, which is
enough because every step consumes at least one character.) -/
def replaceAll (pat rep l : List Char) : List Char :=
  replaceAllF pat rep (l.length + 1) l

/-- Substring containment (`pat in s` in Python). -/
def containsSub (pat : List Char) : List Char → Bool
  | [] => pat.isEmpty
  | c :: rest => pat.isPrefixOf (c :: rest) || containsSub pat rest

/-- Single-character `str.replace(a, b)` (the separator replacements of
lines 290-296). -/
def mapReplace (a b : Char) (l : List Char) : List Char :=
  l.map (fun c => if c == a then b else c)

/-- The `:MM` (and optional `:SS`) tail of the clock-time regexes of lines
287 and 289; returns the number of characters it consumes. -/
def timeTail (sec : Bool) (l : List Char) : Option Nat :=
  match l with
  | c :: m1 :: m2 :: rest =>
    if c == ':' && between '0' '5' m1 && m2.isDigit then
      if sec then
        match rest with
        | d :: s1 :: s2 :: _ =>
          if d == ':' && between '0' '5' s1 && s2.isDigit then some 6 else none
        | _ => none
      else some 3
    else none
  | _ => none

/-- A match of the clock-time pattern `([01]?[0-9]|2[0-3]):[0-5][0-9](:[0-5][0-9])?`
at the head of `l`, following the alternation and backtracking of the regex engine, in
order: two-digit `[01][0-9]` hour first, then one-digit hour, then `2[0-3]`.
Returns the total matched length. -/
def timeMatch (sec : Bool) (l : List Char) : Option Nat :=
  (match l with
   | c0 :: c1 :: rest =>
     if between '0' '1' c0 && c1.isDigit then (timeTail sec rest).map (2 + ·) else none
   | _ => none).orElse (fun _ =>
  (match l with
   | c0 :: rest =>
     if c0.isDigit then (timeTail sec rest).map (1 + ·) else none
   | _ => none).orElse (fun _ =>
  match l with
  | c0 :: c1 :: rest =>
    if c0 == '2' && between '0' '3' c1 then (timeTail sec rest).map (2 + ·) else none
  | _ => none))

/-- Fuelled `re.sub` scan with a single-space replacement: at each position
try the matcher; on a match emit one space and continue after it, otherwise
keep the character. -/
def scanSub (m : List Char → Option Nat) : Nat → List Char → List Char
  | 0, l => l
  | _ + 1, [] => []
  | fuel + 1, c :: rest =>
    match m (c :: rest) with
    | some n => if n = 0 then c :: scanSub m fuel rest else ' ' :: scanSub m fuel ((c :: rest).drop n)
    | none => c :: scanSub m fuel rest

/-- The twelve protected month abbreviations of line 301. -/
def protectedMonths : List (List Char) :=
  [str "jan", str "feb", str "mar", str "apr", str "may", str "jun",
   str "jul", str "aug", str "sep", str "oct", str "nov", str "dec"]

/-- The protected words of line 301: month abbreviations plus the BC marker. -/
def protectedWords : List (List Char) :=
  protectedMonths ++ [str "bc"]

/-- Case-insensitive prefix test against a lowercase pattern. -/
def icStarts (w l : List Char) : Bool :=
  w.isPrefixOf ((l.take w.length).map Char.toLower)

/-- The protected-word spacing of line 302
(the `re.sub` of the protected-word alternation with a space-padded group replacement, IGNORECASE): at each position the
first alternation branch that matches wins; the match is emitted surrounded
by spaces and scanning continues after it. -/
def spaceProtected : Nat → List Char → List Char
  | 0, l => l
  | _ + 1, [] => []
  | fuel + 1, c :: rest =>
    match protectedWords.find? (fun w => icStarts w (c :: rest)) with
    | some w => ' ' :: ((c :: rest).take w.length ++ ' ' :: spaceProtected fuel ((c :: rest).drop w.length))
    | none => c :: spaceProtected fuel rest

/-- The keep condition of the word-removal regex of line 303
(`\b(?!\d|\bjan|feb|...|dec|bc\b)\w+\b`, IGNORECASE): a whole word survives
iff it starts with a digit, or starts with a month abbreviation, or is
exactly the BC marker (the `\b` in the pattern attaches only to `jan` and to
`bc`). -/
def keepWord (w : List Char) : Bool :=
  (match w with
   | c :: _ => c.isDigit
   | [] => false)
  || protectedMonths.any (fun p => icStarts p w)
  || (w.map Char.toLower == str "bc")

/-- The word-removal substitution of line 303: every maximal `\w` run that
fails `keepWord` is deleted; other characters pass through. -/
def removeWords : Nat → List Char → List Char
  | 0, l => l
  | _ + 1, [] => []
  | fuel + 1, c :: rest =>
    if isWordChar c then
      (if keepWord ((c :: rest).takeWhile isWordChar) then (c :: rest).takeWhile isWordChar else [])
        ++ removeWords fuel ((c :: rest).dropWhile isWordChar)
    else c :: removeWords fuel rest

/-- The letter/digit boundary spacing of line 300: a space is inserted
between every adjacent letter-digit or digit-letter pair. -/
def addBoundarySpaces : List Char → List Char
  | [] => []
  | [c] => [c]
  | c1 :: c2 :: rest =>
    if (c1.isAlpha && c2.isDigit) || (c1.isDigit && c2.isAlpha) then
      c1 :: ' ' :: addBoundarySpaces (c2 :: rest)
    else
      c1 :: addBoundarySpaces (c2 :: rest)

/-- Line 298: every character that is neither a word character nor whitespace
becomes a space. -/
def nonWordToSpace (l : List Char) : List Char :=
  l.map (fun c => if !isWordChar c && !isPySpace c then ' ' else c)

/-- The leading-minus BC rewrite test of line 283 (`^\-[0-9]{1,4}$`). -/
def negBareNum : List Char → Bool
  | '-' :: rest => !rest.isEmpty && rest.length ≤ 4 && rest.all Char.isDigit
  | _ => false

/-- The zero-padding pattern of line 305 (`^[0-9]( bc)?$`). -/
def pat1 : List Char → Bool
  | [a] => a.isDigit
  | [a, ' ', 'b', 'c'] => a.isDigit
  | _ => false

/-- The zero-padding pattern of line 307 (`^[0-9]{2}( bc)?$`). -/
def pat2 : List Char → Bool
  | [a, b] => a.isDigit && b.isDigit
  | [a, b, ' ', 'b', 'c'] => a.isDigit && b.isDigit
  | _ => false

/-- The zero-padding pattern of line 309 (`^0[0-9]{2}( bc)?$`): note the
mandatory leading zero. -/
def pat3 : List Char → Bool
  | ['0', b, c] => b.isDigit && c.isDigit
  | ['0', b, c, ' ', 'b', 'c'] => b.isDigit && c.isDigit
  | _ => false

/-- The BC sign pattern of line 311 (the `re.match` of four digits, a space and the bc marker:
anchored at the start only, so it is a prefix test). -/
def bcSignRule : List Char → Bool
  | a :: b :: c :: d :: ' ' :: 'b' :: 'c' :: _ =>
    a.isDigit && b.isDigit && c.isDigit && d.isDigit
  | _ => false

/-- The zero-padding cascade of lines 305-310. -/
def padStep (date : List Char) : List Char :=
  if pat1 date then '0' :: '0' :: '0' :: date
  else if pat2 date then '0' :: '0' :: date
  else if pat3 date then '0' :: date
  else date

/-- Lines 305-314 of `_cleanDate`: zero padding, the BC minus sign, dropping
the BC marker, and the final whitespace collapse. -/
def padAndSign (date : List Char) : List Char :=
  let date := padStep date
  let date := if bcSignRule date then '-' :: date else date
  let date := replaceAll (str "bc") [] date
  joinSpace (splitWs date)

/-- Function `_cleanDate` (lines 269-315), parameterised by the external `unidecode`
transliteration collaborator.  Each step is the direct image of one source
line; the regex substitutions are implemented by the scanners above. -/
def cleanDate (translit : List Char → List Char) (date0 : List Char) : List Char :=
  let date := translit date0
  let date := date.map Char.toLower
  let date := pyStrip date
  let date := replaceAll (str "pm") [' '] date
  let date := replaceAll (str "am") [' '] date
  let date := if negBareNum date then (date.drop 1) ++ str " bc" else date
  let date := if 9 < date.length then scanSub (timeMatch true) (date.length + 1) date else date
  let date := if 6 < date.length then scanSub (timeMatch false) (date.length + 1) date else date
  let date := mapReplace '/' ' ' date
  let date := mapReplace ',' ' ' date
  let date := mapReplace '.' ' ' date
  let date := mapReplace (Char.ofNat 34) ' ' date
  let date := mapReplace (Char.ofNat 39) ' ' date
  let date := mapReplace '-' ' ' date
  let date := mapReplace '_' ' ' date
  let date := joinSpace (splitWs date)
  let date := nonWordToSpace date
  let date := replaceAll (str "  ") [' '] date
  let date := addBoundarySpaces date
  let date := spaceProtected (date.length + 1) date
  let date := removeWords (date.length + 1) date
  let date := joinSpace (splitWs date)
  padAndSign date

/-- Model of the values returned by the date carriers of the pipeline: a `datetime`
produced by the dateutil collaborator, or the `AncientDateTime` pydantic model
of lines 227-232 (whose `month` and `day` fields are always `None`). -/
inductive PyDateTime where
  | dt (year month day : Int)
  | ancient (year : Int)
  deriving DecidableEq, Repr

/-- The `year` attribute of a parsed date. -/
def pdtYear : PyDateTime → Int
  | .dt y _ _ => y
  | .ancient y => y

/-- The `month` attribute of a parsed date (`None` on `AncientDateTime`). -/
def pdtMonth : PyDateTime → Option Int
  | .dt _ m _ => some m
  | .ancient _ => none

/-- The `day` attribute of a parsed date (`None` on `AncientDateTime`). -/
def pdtDay : PyDateTime → Option Int
  | .dt _ _ d => some d
  | .ancient _ => none

/-- Modelled from the spec: the external collaborators of the pipeline, which
are out of scope for the repository and specified only by interface --
the `unidecode` Unicode-to-ASCII transliteration, `dateutil.parser.parse`
with the `datetime(9999, 1, 1)` default (returning the field-filled instant,
or `none` for a `ParserError`), the bare validity check
bare `parse` validity check of the year-month-day string used by the
candidate extractor, and the
current calendar year `datetime.now().year`.  Every theorem about the
pipeline quantifies over this record. -/
structure Env where
  translit : List Char → List Char
  parseDefault : List Char → Option (Int × Int × Int)
  accepts : List Char → Bool
  nowYear : Int

/-- The rejection pattern of line 330 (`^0{0,2}[0-9]{2}$`): two digits with
zero to two leading zeros. -/
def twoDigitPat : List Char → Bool
  | [a, b] => a.isDigit && b.isDigit
  | [a, b, c] => a == '0' && b.isDigit && c.isDigit
  | [a, b, c, d] => a == '0' && b == '0' && c.isDigit && d.isDigit
  | _ => false

/-- Function `_parseWithDateutil` (lines 317-340): start from the sentinel
`parse` of the fixed string 1-1-0001, that is, year 1, month 1, day 1; reject the ambiguous two-digit pattern and any remaining
BC marker (both raise a `ParserError` that the function itself catches);
otherwise ask the collaborator; on success the field count is the number of
whitespace tokens, plus one when the default year 9999 was kept (meaning no
year was present in the input). -/
def parseWithDateutil (env : Env) (date : List Char) : PyDateTime × Nat :=
  let parsedDate := PyDateTime.dt 1 1 1
  let numFields := 0
  let date := pyStrip date
  if twoDigitPat date then (parsedDate, numFields)
  else if containsSub (str "bc") date then (parsedDate, numFields)
  else
    match env.parseDefault date with
    | none => (parsedDate, numFields)
    | some (y, m, d) =>
      let nf := (splitWs date).length
      (PyDateTime.dt y m d, if y = 9999 then nf + 1 else nf)

/-- The ancient-date pattern of line 251 (`^-?[0-9]{4}$`). -/
def signed4 : List Char → Bool
  | '-' :: rest => rest.length == 4 && rest.all Char.isDigit
  | l => l.length == 4 && l.all Char.isDigit

/-- Numeric value of a digit string. -/
def digitsVal (l : List Char) : Nat :=
  l.foldl (fun acc c => 10 * acc + (c.toNat - '0'.toNat)) 0

/-- Python `int(...)` on an optionally minus-signed digit string. -/
def signedVal : List Char → Int
  | '-' :: rest => -(digitsVal rest : Int)
  | l => (digitsVal l : Int)

/-- The first four characters, when they are all digits (the lookahead
`(?=(\\d{4}))`). -/
def next4Digits : List Char → Option (List Char)
  | a :: b :: c :: d :: _ =>
    if a.isDigit && b.isDigit && c.isDigit && d.isDigit then some [a, b, c, d] else none
  | _ => none

/-- The overlapping four-digit-window scan of line 359
(the `re.findall` of an optional minus followed by a four-digit lookahead group): the lookahead group captures every
window of four consecutive digits; the optional minus consumes one character
while the lookahead consumes none, so after any match the scan advances by
exactly one position (and a window preceded by a minus sign is reported
twice, exactly as the regex engine does). -/
def findYearWindows : List Char → List (List Char)
  | [] => []
  | c :: rest =>
    if c == '-' then
      match next4Digits rest with
      | some w => w :: findYearWindows rest
      | none => findYearWindows rest
    else
      match next4Digits (c :: rest) with
      | some w => w :: findYearWindows rest
      | none => findYearWindows rest

/-- Model of `re.findall` of a single-character range pattern (`[1-9]`): every
matching character is a match. -/
def findAllOne (lo hi : Char) : List Char → List (List Char)
  | [] => []
  | c :: rest =>
    if between lo hi c then [c] :: findAllOne lo hi rest else findAllOne lo hi rest

/-- Model of `re.findall` of a two-character range pattern (such as `0[1-9]`),
non-overlapping, scanning left to right. -/
def findAllTwo (lo1 hi1 lo2 hi2 : Char) : List Char → List (List Char)
  | [] => []
  | [_] => []
  | a :: b :: rest =>
    if between lo1 hi1 a && between lo2 hi2 b then
      [a, b] :: findAllTwo lo1 hi1 lo2 hi2 rest
    else
      findAllTwo lo1 hi1 lo2 hi2 (b :: rest)

/-- Fuelled `re.findall` of a literal word, case-insensitively (IGNORECASE),
non-overlapping; the matched text is returned as it appears in the input. -/
def findAllWordIC (w : List Char) : Nat → List Char → List (List Char)
  | 0, _ => []
  | _ + 1, [] => []
  | fuel + 1, c :: rest =>
    if !w.isEmpty && icStarts w (c :: rest) then
      (c :: rest).take w.length :: findAllWordIC w fuel ((c :: rest).drop w.length)
    else
      findAllWordIC w fuel rest

/-- Function `_findAllMatches` (lines 455-468) for the month patterns of line 368:
the concatenation, pattern by pattern, of all matches of `[1-9]`, `0[1-9]`,
`1[0-9]`, and the twelve month names. -/
def findValidMonths (l : List Char) : List (List Char) :=
  findAllOne '1' '9' l
  ++ findAllTwo '0' '0' '1' '9' l
  ++ findAllTwo '1' '1' '0' '9' l
  ++ (protectedMonths.map (fun w => findAllWordIC w (l.length + 1) l)).flatten

/-- Function `_findAllMatches` for the day patterns of line 379: `[1-9]`, `0[1-9]`,
`1[0-9]`, `2[0-9]`, `3[01]`. -/
def findValidDays (l : List Char) : List (List Char) :=
  findAllOne '1' '9' l
  ++ findAllTwo '0' '0' '1' '9' l
  ++ findAllTwo '1' '1' '0' '9' l
  ++ findAllTwo '2' '2' '0' '9' l
  ++ findAllTwo '3' '3' '0' '1' l

/-- Worker for `_getStringsAndInstances`, carrying the `countDict`
association list. -/
def gsiAux : List (List Char) → List (List Char × Nat) → List (List Char × Nat)
  | [], _ => []
  | s :: rest, countDict =>
    let countDict :=
      if (countDict.find? (fun p => p.1 == s)).isSome then
        countDict.map (fun p => if p.1 == s then (p.1, p.2 + 1) else p)
      else countDict ++ [(s, 1)]
    (s, ((countDict.find? (fun p => p.1 == s)).map Prod.snd).getD 1 - 1)
      :: gsiAux rest countDict

/-- Function `_getStringsAndInstances` (lines 407-423): pair each string with its
0-based occurrence index among equal strings seen so far. -/
def getStringsAndInstances (stringList : List (List Char)) : List (List Char × Nat) :=
  gsiAux stringList []

/-- Fuelled worker for `_substituteIthInstance`: the nonlocal counter `i` is
threaded explicitly; every non-overlapping occurrence of the literal pattern
decrements it, and the occurrence hit at `i = 0` is replaced. -/
def subIthF (pattern replacement : List Char) : Nat → Int → List Char → List Char
  | 0, _, l => l
  | _ + 1, _, [] => []
  | fuel + 1, i, c :: rest =>
    if !pattern.isEmpty && pattern.isPrefixOf (c :: rest) then
      (if i = 0 then replacement else pattern)
        ++ subIthF pattern replacement fuel (i - 1) ((c :: rest).drop pattern.length)
    else
      c :: subIthF pattern replacement fuel i rest

/-- Function `_substituteIthInstance` (lines 425-453). -/
def substituteIthInstance (text pattern replacement : List Char) (i : Int) : List Char :=
  subIthF pattern replacement (text.length + 1) i text

/-- A candidate combo of `gleanYearMonthDay`: the `(year, month, day)` tuple
of token strings, any of which may be absent. -/
structure Combo where
  year : Option (List Char)
  month : Option (List Char)
  day : Option (List Char)
  deriving DecidableEq, Repr

/-- The `(None, None, None)` combo. -/
def emptyCombo : Combo := ⟨none, none, none⟩

/-- Python `set.add`: append if not already present (the insertion-ordered
determinisation of the Python set, per the design note of the specification on
tie-break order). -/
def setAdd (l : List Combo) (c : Combo) : List Combo :=
  if c ∈ l then l else l ++ [c]

/-- Total characters of the non-absent fields of a combo (the primary
ranking of line 389). -/
def comboChars (c : Combo) : Nat :=
  ((c.year.map List.length).getD 0) + ((c.month.map List.length).getD 0)
    + ((c.day.map List.length).getD 0)

/-- Count of non-absent fields of a combo (the secondary ranking of
line 390). -/
def comboFields (c : Combo) : Nat :=
  (if c.year.isSome then 1 else 0) + (if c.month.isSome then 1 else 0)
    + (if c.day.isSome then 1 else 0)

/-- Ranking `keyFunc` (lines 388-391). -/
def keyFunc (c : Combo) : Nat × Nat :=
  (comboChars c, comboFields c)

/-- Python tuple `<` on the ranking pairs (lexicographic). -/
def tupLt (p q : Nat × Nat) : Bool :=
  p.1 < q.1 || (p.1 = q.1 && p.2 < q.2)

/-- The pairwise tie reconciliation of lines 397-404: the year survives only
if both year strings are identical; month and day survive only if both match
exactly, else both become absent. -/
def reconcilePair (a b : Combo) : Combo :=
  let y := if a.year = b.year then a.year else none
  if a.month ≠ b.month ∨ a.day ≠ b.day then ⟨y, none, none⟩ else ⟨y, a.month, a.day⟩

/-- One iteration of the inner reconciliation loop (lines 396-404): reconcile
positions `i` and `j` and write the result into both. -/
def comboStep (l : List Combo) (i j : Nat) : List Combo :=
  let r := reconcilePair (l.getD i emptyCombo) (l.getD j emptyCombo)
  (l.set i r).set j r

/-- Python `range(a, b)`. -/
def pyRange (a b : Nat) : List Nat :=
  go a (b - a)
where
  /-- Builds `c` consecutive indices starting at `s`. -/
  go (s : Nat) : Nat → List Nat
    | 0 => []
    | c + 1 => s :: go (s + 1) c

/-- Model of `max(scores.values())` of line 393: Python tuple `max` by a left fold
(any maximal value is an acceptable result because ties between equal tuples
are indistinguishable). -/
def pyMaxTup : List (Combo × (Nat × Nat)) → Nat × Nat
  | [] => (0, 0)
  | s :: rest => rest.foldl (fun m p => if tupLt m p.2 then p.2 else m) s.2

/-- The pairwise reconciliation double loop of lines 395-404 over the list of
tied best options (`for i in range(n): for j in range(i+1, n): ...`). -/
def reconcileLoop (l : List Combo) : List Combo :=
  (pyRange 0 l.length).foldl
    (fun acc i => (pyRange (i + 1) l.length).foldl
      (fun acc2 j => comboStep acc2 i j) acc) l

/-- The best-combo selection stage of `gleanYearMonthDay` (lines 388-405):
rank every combo by `keyFunc`, keep those tied for the maximal rank, run the
pairwise reconciliation double loop over them, and return the first
element. -/
def selectBestCombo (combos : List Combo) : Combo :=
  let scores := combos.map (fun c => (c, keyFunc c))
  let maxScore := pyMaxTup scores
  let bestOptions := (scores.filter (fun p => p.2 = maxScore)).map Prod.fst
  (reconcileLoop bestOptions).headD emptyCombo

/-- The ranking order of the specification, stated on the `keyFunc` pairs:
lexicographically, total character length first, field count second. -/
def tupLe (p q : Nat × Nat) : Prop :=
  p.1 < q.1 ∨ (p.1 = q.1 ∧ p.2 ≤ q.2)

instance (p q : Nat × Nat) : Decidable (tupLe p q) := by
  unfold tupLe
  infer_instance

/-- The selection stage exactly as the specification states it: among all
acceptable combos keep exactly those whose rank is maximal (the rank of every other
combo is at most theirs), reconcile the tied combos pairwise by a
fold, and return the result. -/
def selectBestSpec (combos : List Combo) : Combo :=
  match combos.filter (fun c => decide (∀ c' ∈ combos, tupLe (keyFunc c') (keyFunc c))) with
  | [] => emptyCombo
  | b :: bs => bs.foldl reconcilePair b

/-- The candidate-combo enumeration of `gleanYearMonthDay` (lines 352-387):
the empty combo, every valid year (a four-digit window with value at most the
current calendar year, with its occurrence index), for each of these every
valid month found after removing that year occurrence, and for each of these
every valid day found after removing that month occurrence, the (year,
month, day) triple being kept only when the external parser accepts
`year-month-day`. -/
def gleanCombos (env : Env) (text : List Char) : List Combo :=
  let acceptableCombos : List Combo := [emptyCombo]
  let validYears := (findYearWindows text).filter
    (fun m => (digitsVal m : Int) ≤ env.nowYear)
  (getStringsAndInstances validYears).foldl (fun acc yi =>
    let year := yi.1
    let acc := setAdd acc ⟨some year, none, none⟩
    let textA := replaceAll (str "  ") [' ']
      (pyStrip (substituteIthInstance text year [' '] (yi.2 : Int)))
    (getStringsAndInstances (findValidMonths textA)).foldl (fun acc2 mi =>
      let month := mi.1
      let acc2 := setAdd acc2 ⟨some year, some month, none⟩
      let textB := replaceAll (str "  ") [' ']
        (pyStrip (substituteIthInstance textA month [' '] (mi.2 : Int)))
      (findValidDays textB).foldl (fun acc3 day =>
        if env.accepts (year ++ '-' :: (month ++ '-' :: day)) then
          setAdd acc3 ⟨some year, some month, some day⟩
        else acc3) acc2) acc) acceptableCombos

/-- Function `gleanYearMonthDay` (lines 342-405): enumerate the candidate combos, then
select the best one. -/
def gleanYearMonthDay (env : Env) (text : List Char) : Combo :=
  selectBestCombo (gleanCombos env text)

/-- Rendering of an optional token in the f-string of line 265 (`None` for
an absent field). -/
def optStr : Option (List Char) → List Char
  | none => str "None"
  | some s => s

/-- The body of `_getCleanedDateAndNumFields` after the cleaning step (lines
250-267): return immediately on the signed four-digit pattern as an
`AncientDateTime` with one field; else try the explicit parser; else glean,
and if a year was gleaned, re-parse the synthesised
year-month-day string with the None markers removed (line 265). -/
def getCleanedCore (env : Env) (date : List Char) : PyDateTime × Nat :=
  if signed4 date then (PyDateTime.ancient (signedVal date), 1)
  else
    let pn := parseWithDateutil env date
    if pn.2 ≠ 0 then pn
    else
      let c := gleanYearMonthDay env date
      match c.year with
      | none => pn
      | some y =>
        let date := replaceAll (str "None") []
          (y ++ ' ' :: (optStr c.month ++ ' ' :: optStr c.day))
        parseWithDateutil env date

/-- Function `_getCleanedDateAndNumFields` (lines 234-267): clean, then run the rest
of the pipeline on the cleaned string. -/
def getCleanedDateAndNumFields (env : Env) (date0 : List Char) : PyDateTime × Nat :=
  getCleanedCore env (cleanDate env.translit date0)

/-- The possible Python arguments of `createFlexibleDate`: a string, `None`,
or a value of any other type. -/
inductive PyInput where
  | pyStr (s : List Char)
  | pyNone
  | otherType

/-- Conversion of an optional int to the value passed to a `FlexibleDate`
field. -/
def toPyVal : Option Int → PyVal
  | none => .vNone
  | some n => .vInt n

/-- The bare `try/except` of lines 221-224: a successful construction is
returned as is, any construction error degrades to the all-absent date. -/
def tryExceptAllAbsent (e : Except PyErr FlexibleDate) : Except PyErr FlexibleDate :=
  match e with
  | .ok fd => .ok fd
  | .error _ => .ok ⟨none, none, none⟩

/-- The field selection and construction of `createFlexibleDate` (lines
207-225): the year is kept when at least one field was found and the year is
not the 9999 sentinel, the month when at least two fields, the day when
exactly three, and the construction is wrapped in the bare `try/except` of
lines 221-224, which degrades any construction failure to the all-absent
date. -/
def buildFromParsed (pn : PyDateTime × Nat) : Except PyErr FlexibleDate :=
  let likelyYear := if 1 ≤ pn.2 then
      (if pdtYear pn.1 ≠ 9999 then some (pdtYear pn.1) else none)
    else none
  let likelyMonth := if 2 ≤ pn.2 then pdtMonth pn.1 else none
  let likelyDay := if pn.2 = 3 then pdtDay pn.1 else none
  tryExceptAllAbsent
    (mkFlexibleDate (toPyVal likelyYear) (toPyVal likelyMonth) (toPyVal likelyDay))

/-- Function `createFlexibleDate` (lines 188-225): `None` gives the all-absent date; a
non-string non-`None` input raises `ValueError`; otherwise the pipeline runs
and the result is built from the parsed date and field count. -/
def createFlexibleDate (env : Env) (likelyDate : PyInput) : Except PyErr FlexibleDate :=
  match likelyDate with
  | .pyNone => .ok ⟨none, none, none⟩
  | .otherType => .error .invalidArgument
  | .pyStr s => buildFromParsed (getCleanedDateAndNumFields env s)

/-- A concrete environment used by the witnesses: identity transliteration, a
parser collaborator that rejects everything, and the calendar year 2026. -/
def pureEnv : Env :=
  { translit := id, parseDefault := fun _ => none, accepts := fun _ => false, nowYear := 2026 }

/-- A concrete environment whose parser collaborator recognises exactly the
cleaned string `"2024 08 06"`, used by the C9 witness. -/
def fullDateEnv : Env :=
  { translit := id,
    parseDefault := fun l => if l == str "2024 08 06" then some (2024, 8, 6) else none,
    accepts := fun _ => false, nowYear := 2026 }

theorem yearContrib_comm (y1 y2 : Int) : yearContrib y1 y2 = yearContrib y2 y1 := by
  simp only [yearContrib]
  rw [abs_sub_comm y1 y2, add_comm (y1 : ℚ) (y2 : ℚ)]

theorem monthContrib_comm (m1 m2 : Int) : monthContrib m1 m2 = monthContrib m2 m1 := by
  simp only [monthContrib]
  rw [abs_sub_comm m1 m2]

theorem difDaysVal_comm (d1 d2 : Int) : difDaysVal d1 d2 = difDaysVal d2 d1 := by
  simp only [difDaysVal]
  rw [abs_sub_comm d1 d2]

theorem dayContrib_comm (d1 d2 : Int) : dayContrib d1 d2 = dayContrib d2 d1 := by
  simp only [dayContrib, difDaysVal_comm]

theorem pairDo_comm (x y : Option Int) (f : Int → Int → ℚ)
    (hf : ∀ u v, f u v = f v u) : pairDo x y f = pairDo y x f := by
  cases x <;> cases y <;> simp [pairDo, hf]

theorem bonusYM_comm (y1 y2 m1 m2 : Option Int) :
    bonusYM y1 y2 m1 m2 = bonusYM y2 y1 m2 m1 := by
  cases y1 <;> cases y2 <;> cases m1 <;> cases m2 <;>
    simp [bonusYM, abs_sub_comm, and_comm]

theorem bonusDM_comm (m1 m2 d1 d2 : Option Int) :
    bonusDM m1 m2 d1 d2 = bonusDM m2 m1 d2 d1 := by
  cases m1 <;> cases m2 <;> cases d1 <;> cases d2 <;>
    simp [bonusDM, abs_sub_comm, difDaysVal_comm, and_comm]

theorem bonusYMD_comm (y1 y2 m1 m2 d1 d2 : Option Int) :
    bonusYMD y1 y2 m1 m2 d1 d2 = bonusYMD y2 y1 m2 m1 d2 d1 := by
  cases y1 <;> cases y2 <;> cases m1 <;> cases m2 <;> cases d1 <;> cases d2 <;>
    simp only [bonusYMD]
  rename_i a b c d e f
  rw [abs_sub_comm a b, abs_sub_comm c d, difDaysVal_comm e f]

/-- C3: `compareTwoDates` is symmetric: swapping its two arguments never
changes the score. -/
theorem compareTwoDates_symmetric (a b : FlexibleDate) :
    compareTwoDates a b = compareTwoDates b a := by
  simp only [compareTwoDates]
  rw [pairDo_comm _ _ yearContrib yearContrib_comm,
    pairDo_comm _ _ monthContrib monthContrib_comm,
    pairDo_comm _ _ dayContrib dayContrib_comm,
    bonusYM_comm, bonusDM_comm, bonusYMD_comm]

/-- C10: if no one of the three fields is present in both dates, the score is
exactly 0. -/
theorem compareTwoDates_no_shared_field (a b : FlexibleDate)
    (hY : a.likelyYear = none ∨ b.likelyYear = none)
    (hM : a.likelyMonth = none ∨ b.likelyMonth = none)
    (hD : a.likelyDay = none ∨ b.likelyDay = none) :
    compareTwoDates a b = 0 := by
  simp only [compareTwoDates]
  rcases hY with h1 | h1 <;> rcases hM with h2 | h2 <;> rcases hD with h3 | h3 <;>
    simp [pairDo, bonusYM, bonusDM, bonusYMD, h1, h2, h3]

/-- Witness for C10 at a concrete disjoint pair of dates. -/
theorem compareTwoDates_no_shared_field_witness :
    ((⟨some 1990, none, some 7⟩ : FlexibleDate).likelyYear = none ∨
      (⟨none, some 5, none⟩ : FlexibleDate).likelyYear = none) ∧
    compareTwoDates ⟨some 1990, none, some 7⟩ ⟨none, some 5, none⟩ = 0 :=
  ⟨Or.inr rfl,
    compareTwoDates_no_shared_field ⟨some 1990, none, some 7⟩ ⟨none, some 5, none⟩
      (Or.inr rfl) (Or.inl rfl) (Or.inr rfl)⟩

theorem monthContrib_eq_spec (m1 m2 : Int) :
    monthContrib m1 m2 = monthContributionSpec (m1 - m2).natAbs := by
  simp only [monthContrib, monthContributionSpec]
  rw [Int.abs_eq_natAbs]
  set d : Nat := (m1 - m2).natAbs with hd
  split_ifs <;> first
    | rfl
    | (exfalso; omega)

/-- C6: when both months are present, the month contribution of
`compareTwoDates` is exactly the table stated by the specification for the direct
(non-wraparound) absolute month difference; the wraparound distance that the
source computes never affects the score. -/
theorem compareTwoDates_month_direct (a b : FlexibleDate) (m1 m2 : Int)
    (h1 : a.likelyMonth = some m1) (h2 : b.likelyMonth = some m2) :
    compareTwoDates a b =
      pairDo a.likelyYear b.likelyYear yearContrib
      + monthContributionSpec (m1 - m2).natAbs
      + pairDo a.likelyDay b.likelyDay dayContrib
      + bonusYM a.likelyYear b.likelyYear a.likelyMonth b.likelyMonth
      + bonusDM a.likelyMonth b.likelyMonth a.likelyDay b.likelyDay
      + bonusYMD a.likelyYear b.likelyYear a.likelyMonth b.likelyMonth
          a.likelyDay b.likelyDay := by
  simp only [compareTwoDates, h1, h2, pairDo, monthContrib_eq_spec]

/-- Witness for C6 at a concrete pair with months 1 and 12: the direct
difference 11 gives a month term of -11 (the wraparound distance 1 is
ignored). -/
theorem compareTwoDates_month_direct_witness :
    (⟨none, some 1, none⟩ : FlexibleDate).likelyMonth = some 1 ∧
    compareTwoDates ⟨none, some 1, none⟩ ⟨none, some 12, none⟩ =
      pairDo none none yearContrib + monthContributionSpec ((1 : Int) - 12).natAbs
      + pairDo none none dayContrib + bonusYM none none (some 1) (some 12)
      + bonusDM (some 1) (some 12) none none
      + bonusYMD none none (some 1) (some 12) none none :=
  ⟨rfl, compareTwoDates_month_direct ⟨none, some 1, none⟩ ⟨none, some 12, none⟩ 1 12 rfl rfl⟩

/-- C2 fails on the code: `combineFlexibleDates []` raises.  Each field list
is empty, so `_chooseMostReasonableValue` returns the dict literal mapping None to 1
(line 176), and passing a dict as an optional-int field makes the pydantic
constructor raise a `ValidationError` instead of producing an all-absent
date. -/
theorem combineFlexibleDates_empty_raises :
    combineFlexibleDates [] = Except.error PyErr.validationError := by
  rfl

theorem mem_distinctFirst (v : Int) : ∀ (l : List Int), v ∈ distinctFirst l ↔ v ∈ l := by
  intro l
  induction l using distinctFirst.induct with
  | case1 => simp [distinctFirst]
  | case2 a t ih =>
    rw [distinctFirst]
    simp only [List.mem_cons, ih, List.mem_filter]
    constructor
    · rintro (rfl | ⟨hv, _⟩)
      · exact Or.inl rfl
      · exact Or.inr hv
    · rintro (rfl | hv)
      · exact Or.inl rfl
      · by_cases hva : v = a
        · exact Or.inl hva
        · exact Or.inr ⟨hv, by simpa using hva⟩

theorem count_add_filter_ne_length (a : Int) :
    ∀ (t : List Int), t.count a + (t.filter (fun x => x ≠ a)).length = t.length := by
  intro t
  induction t with
  | nil => simp
  | cons b t ih =>
    by_cases hba : b = a
    · subst hba
      rw [List.count_cons_self, List.filter_cons_of_neg (by simp)]
      simp only [List.length_cons]
      omega
    · rw [List.count_cons_of_ne (Ne.symm hba), List.filter_cons_of_pos (by simpa using hba)]
      simp only [List.length_cons]
      omega

theorem distinctFirst_sum_count :
    ∀ (l : List Int), ((distinctFirst l).map (fun v => l.count v)).sum = l.length := by
  intro l
  induction l using distinctFirst.induct with
  | case1 => simp [distinctFirst]
  | case2 a t ih =>
    rw [distinctFirst]
    simp only [List.map_cons, List.sum_cons]
    have hmap : (distinctFirst (t.filter (fun x => x ≠ a))).map (fun v => (a :: t).count v)
        = (distinctFirst (t.filter (fun x => x ≠ a))).map
            (fun v => (t.filter (fun x => x ≠ a)).count v) := by
      apply List.map_eq_map_iff.mpr
      intro v hv
      have hvmem : v ∈ t.filter (fun x => x ≠ a) := (mem_distinctFirst v _).mp hv
      have hvne : v ≠ a := by
        have h2 := (List.mem_filter.mp hvmem).2
        simpa using h2
      rw [List.count_cons_of_ne hvne, List.count_filter (by simpa using hvne)]
    rw [hmap, ih, List.count_cons_self]
    have := count_add_filter_ne_length a t
    simp only [List.length_cons]
    omega

theorem codeConfidence_go (vc : Int × Nat) (T : ℚ) :
    ∀ (counter : List (Int × Nat)) (init : ℚ),
      counter.foldl (fun confidence wc =>
        if vc.1 ≠ wc.1 then
          confidence + (6/5) * ((wc.2 : ℚ) / T) / ((1 + |vc.1 - wc.1| : ℤ) : ℚ)
        else confidence) init
      = init + ((counter.filter (fun wc => decide (vc.1 ≠ wc.1))).map (fun wc =>
          (6/5) * ((wc.2 : ℚ) / T) / ((1 + |vc.1 - wc.1| : ℤ) : ℚ))).sum := by
  intro counter
  induction counter with
  | nil => intro init; simp
  | cons w t ih =>
    intro init
    simp only [List.foldl_cons]
    by_cases hp : vc.1 ≠ w.1
    · rw [if_pos hp, ih, List.filter_cons_of_pos (by simpa using hp)]
      simp only [List.map_cons, List.sum_cons]
      ring
    · rw [if_neg hp, ih, List.filter_cons_of_neg (by simpa using hp)]

theorem codeConfidence_eq (counter : List (Int × Nat)) (T : ℚ) (vc : Int × Nat) :
    codeConfidence counter T vc
      = (vc.2 : ℚ) / T + ((counter.filter (fun wc => decide (vc.1 ≠ wc.1))).map (fun wc =>
          (6/5) * ((wc.2 : ℚ) / T) / ((1 + |vc.1 - wc.1| : ℤ) : ℚ))).sum :=
  codeConfidence_go vc T counter _

theorem codeScores_eq_spec (f : List Int) :
    codeScores f = (distinctFirst f).map (fun v => (v, specConf f v)) := by
  have hTn : (List.map (fun v => f.count v) (distinctFirst f)).sum = f.length :=
    distinctFirst_sum_count f
  simp only [codeScores, counterOf, List.map_map]
  apply List.map_eq_map_iff.mpr
  intro v hv
  simp only [Function.comp]
  refine Prod.ext rfl ?_
  rw [codeConfidence_eq, List.filter_map, List.map_map]
  have hfc : (distinctFirst f).filter
        ((fun wc => decide ((v, f.count v).1 ≠ wc.1)) ∘ fun w => (w, f.count w))
      = (distinctFirst f).filter (fun w => decide (w ≠ v)) := by
    apply List.filter_congr
    intro w _
    show decide (v ≠ w) = decide (w ≠ v)
    exact decide_eq_decide.mpr ne_comm
  rw [hfc]
  have hcomp : (Prod.snd ∘ fun v : Int => (v, f.count v)) = fun v => f.count v := by
    funext x
    simp
  rw [hcomp, hTn]
  simp only [specConf, Function.comp]
  congr 1
  apply congrArg List.sum
  apply List.map_eq_map_iff.mpr
  intro w _
  simp only [Function.comp]
  have hcast : (((1 + |v - w| : ℤ)) : ℚ) = 1 + |(v : ℚ) - (w : ℚ)| := by
    push_cast
    ring
  rw [hcast]

theorem pyMaxFold_first : ∀ (xs : List (Int × ℚ)) (b : Int × ℚ),
    ∃ u t, b :: xs = u ++ (xs.foldl pyMaxStep b) :: t
      ∧ (∀ y ∈ u, y.2 < (xs.foldl pyMaxStep b).2)
      ∧ (∀ y ∈ b :: xs, y.2 ≤ (xs.foldl pyMaxStep b).2) := by
  intro xs
  induction xs with
  | nil =>
    intro b
    refine ⟨[], [], rfl, by simp, ?_⟩
    intro y hy
    rw [List.mem_singleton] at hy
    subst hy
    simp
  | cons x xs ih =>
    intro b
    simp only [List.foldl_cons]
    obtain ⟨u', t', hdec, hlt, hub⟩ := ih (pyMaxStep b x)
    by_cases hbx : b.2 < x.2
    · have hstep : pyMaxStep b x = x := by simp [pyMaxStep, hbx]
      rw [hstep] at hdec hlt hub ⊢
      refine ⟨b :: u', t', by simp [hdec], ?_, ?_⟩
      · intro y hy
        rcases List.mem_cons.mp hy with rfl | hy'
        · exact lt_of_lt_of_le hbx (hub x (List.mem_cons_self x xs))
        · exact hlt y hy'
      · intro y hy
        rcases List.mem_cons.mp hy with rfl | hy'
        · exact le_of_lt (lt_of_lt_of_le hbx (hub x (List.mem_cons_self x xs)))
        · exact hub y hy'
    · have hstep : pyMaxStep b x = b := by simp [pyMaxStep, hbx]
      rw [hstep] at hdec hlt hub ⊢
      cases u' with
      | nil =>
        simp only [List.nil_append] at hdec
        have hrb : xs.foldl pyMaxStep b = b := ((List.cons.injEq _ _ _ _).mp hdec).1.symm
        refine ⟨[], x :: xs, ?_, by simp, ?_⟩
        · simp [hrb]
        · intro y hy
          rcases List.mem_cons.mp hy with h | hy'
          · rw [h]
            exact hub b (List.mem_cons_self b xs)
          · rcases List.mem_cons.mp hy' with h | hy''
            · rw [h, hrb]
              exact le_of_not_lt hbx
            · exact hub y (List.mem_cons_of_mem b hy'')
      | cons c u'' =>
        simp only [List.cons_append] at hdec
        obtain ⟨hcb, hxs⟩ := (List.cons.injEq _ _ _ _).mp hdec
        refine ⟨b :: x :: u'', t', ?_, ?_, ?_⟩
        · conv_lhs => rw [hxs]
          simp
        · intro y hy
          have hbr : b.2 < (xs.foldl pyMaxStep b).2 := by
            have hc := hlt c (List.mem_cons_self c u'')
            conv_lhs => rw [hcb]
            exact hc
          rcases List.mem_cons.mp hy with h | hy'
          · rw [h]
            exact hbr
          · rcases List.mem_cons.mp hy' with h | hy''
            · rw [h]
              exact lt_of_le_of_lt (le_of_not_lt hbx) hbr
            · exact hlt y (List.mem_cons_of_mem c hy'')
        · intro y hy
          rcases List.mem_cons.mp hy with h | hy'
          · rw [h]
            exact hub b (List.mem_cons_self b xs)
          · rcases List.mem_cons.mp hy' with h | hy''
            · rw [h]
              exact le_trans (le_of_not_lt hbx) (hub b (List.mem_cons_self b xs))
            · exact hub y (List.mem_cons_of_mem b hy'')

theorem map_eq_append_cons {α β : Type} (F : α → β) :
    ∀ (u : List β) (l : List α) (r : β) (t : List β), l.map F = u ++ r :: t →
      ∃ u₀ x t₀, l = u₀ ++ x :: t₀ ∧ u₀.map F = u ∧ F x = r ∧ t₀.map F = t := by
  intro u
  induction u with
  | nil =>
    intro l r t h
    cases l with
    | nil => simp at h
    | cons x l' =>
      simp only [List.map_cons, List.nil_append] at h
      obtain ⟨h1, h2⟩ := (List.cons.injEq _ _ _ _).mp h
      exact ⟨[], x, l', rfl, rfl, h1, h2⟩
  | cons b u' ih =>
    intro l r t h
    cases l with
    | nil => simp at h
    | cons x l' =>
      simp only [List.map_cons, List.cons_append] at h
      obtain ⟨h1, h2⟩ := (List.cons.injEq _ _ _ _).mp h
      obtain ⟨u₀, y, t₀, hl, hu, hr, ht⟩ := ih l' r t h2
      refine ⟨x :: u₀, y, t₀, by rw [hl]; simp, ?_, hr, ht⟩
      simp [hu, h1]

/-- C5: whenever at least one observation of a field is non-absent,
`_chooseMostReasonableValue` returns the distinct observed value that
maximises the confidence formula of the specification (`specConf`), and ties are
broken by first-occurrence (insertion) order among the distinct values: in
the decomposition of the distinct list around the returned value, every
earlier distinct value has strictly smaller confidence. -/
theorem chooseMostReasonableValue_first_max (values : List (Option Int))
    (h : values.filterMap id ≠ []) :
    ∃ v u t,
      chooseMostReasonableValue values = PyVal.vInt v ∧
      distinctFirst (values.filterMap id) = u ++ v :: t ∧
      (∀ w ∈ distinctFirst (values.filterMap id),
        specConf (values.filterMap id) w ≤ specConf (values.filterMap id) v) ∧
      (∀ w ∈ u, specConf (values.filterMap id) w < specConf (values.filterMap id) v) := by
  obtain ⟨a, f', hf⟩ : ∃ a f', values.filterMap id = a :: f' := by
    cases hfv : values.filterMap id with
    | nil => exact absurd hfv h
    | cons a f' => exact ⟨a, f', rfl⟩
  rw [hf]
  set F : Int → Int × ℚ := fun v => (v, specConf (a :: f') v) with hFdef
  have hd : distinctFirst (a :: f') = a :: distinctFirst (f'.filter (fun x => x ≠ a)) := by
    rw [distinctFirst]
  have hsc : codeScores (a :: f')
      = F a :: (distinctFirst (f'.filter (fun x => x ≠ a))).map F := by
    rw [codeScores_eq_spec, hd, List.map_cons]
  have hch : chooseMostReasonableValue values
      = pyMaxByVal (codeScores (a :: f')) := by
    simp only [chooseMostReasonableValue, hf]
  have hch2 : chooseMostReasonableValue values
      = PyVal.vInt ((((distinctFirst (f'.filter (fun x => x ≠ a))).map F).foldl
          pyMaxStep (F a)).1) := by
    rw [hch, hsc]
    rfl
  obtain ⟨u, t, hdec, hlt, hub⟩ :=
    pyMaxFold_first ((distinctFirst (f'.filter (fun x => x ≠ a))).map F) (F a)
  have hmap : F a :: (distinctFirst (f'.filter (fun x => x ≠ a))).map F
      = (a :: distinctFirst (f'.filter (fun x => x ≠ a))).map F := rfl
  rw [hmap] at hdec
  obtain ⟨u₀, x, t₀, hl, hu, hr, ht⟩ :=
    map_eq_append_cons F u (a :: distinctFirst (f'.filter (fun x => x ≠ a))) _ t hdec
  refine ⟨x, u₀, t₀, ?_, ?_, ?_, ?_⟩
  · rw [hch2, ← hr]
  · rw [hd]
    exact hl
  · intro w hw
    have hwmem : F w ∈ F a :: (distinctFirst (f'.filter (fun x => x ≠ a))).map F := by
      rw [hmap]
      apply List.mem_map_of_mem F
      rw [hd] at hw
      exact hw
    have hle := hub (F w) hwmem
    rw [← hr] at hle
    exact hle
  · intro w hw
    have hwmem : F w ∈ u := by
      rw [← hu]
      exact List.mem_map_of_mem F hw
    have hltw := hlt (F w) hwmem
    rw [← hr] at hltw
    exact hltw

/-- Witness for C5 at the reconciler-majority example given in the specification:
observations 1990, 1990, 1991. -/
theorem chooseMostReasonableValue_first_max_witness :
    ([some (1990 : Int), some 1990, some 1991].filterMap id ≠ []) ∧
    (∃ v u t,
      chooseMostReasonableValue [some (1990 : Int), some 1990, some 1991] = PyVal.vInt v ∧
      distinctFirst ([some (1990 : Int), some 1990, some 1991].filterMap id) = u ++ v :: t ∧
      (∀ w ∈ distinctFirst ([some (1990 : Int), some 1990, some 1991].filterMap id),
        specConf ([some (1990 : Int), some 1990, some 1991].filterMap id) w ≤
          specConf ([some (1990 : Int), some 1990, some 1991].filterMap id) v) ∧
      (∀ w ∈ u, specConf ([some (1990 : Int), some 1990, some 1991].filterMap id) w <
          specConf ([some (1990 : Int), some 1990, some 1991].filterMap id) v)) :=
  ⟨by decide, chooseMostReasonableValue_first_max [some 1990, some 1990, some 1991] (by decide)⟩

theorem tryExceptAllAbsent_ok (e : Except PyErr FlexibleDate) :
    ∃ fd, tryExceptAllAbsent e = .ok fd := by
  cases e with
  | ok fd => exact ⟨fd, rfl⟩
  | error _ => exact ⟨⟨none, none, none⟩, rfl⟩

theorem tryExceptAllAbsent_ok_cases (e : Except PyErr FlexibleDate) (fd : FlexibleDate)
    (h : tryExceptAllAbsent e = .ok fd) :
    fd = ⟨none, none, none⟩ ∨ e = .ok fd := by
  cases e with
  | ok fd' =>
    right
    simpa [tryExceptAllAbsent] using h
  | error _ =>
    left
    have h2 : (⟨none, none, none⟩ : FlexibleDate) = fd := by
      simpa [tryExceptAllAbsent] using h
    exact h2.symm

/-- C1: `createFlexibleDate` never raises on a string or absent input --
every failure inside the pipeline or in the final construction degrades to an
(all-absent) `FlexibleDate` -- and the invalid-argument error is raised
exactly on an input that is neither a string nor `None`.  The theorem
quantifies over the external-collaborator environment. -/
theorem createFlexibleDate_never_raises (env : Env) (s : List Char) :
    (∃ fd, createFlexibleDate env (.pyStr s) = .ok fd) ∧
    createFlexibleDate env .pyNone = .ok ⟨none, none, none⟩ ∧
    createFlexibleDate env .otherType = .error .invalidArgument := by
  refine ⟨?_, rfl, rfl⟩
  simp only [createFlexibleDate, buildFromParsed]
  exact tryExceptAllAbsent_ok _

theorem checkLikelyYear_toPyVal_ok (y r : Option Int)
    (h : checkLikelyYear (toPyVal y) = .ok r) : r = y := by
  cases y with
  | none =>
    simpa [toPyVal, checkLikelyYear] using h.symm
  | some n =>
    simp only [toPyVal, checkLikelyYear] at h
    split at h
    · exact absurd h (by simp)
    · simpa using h.symm

theorem checkLikelyMonth_toPyVal_ok (m r : Option Int)
    (h : checkLikelyMonth (toPyVal m) = .ok r) : r = m := by
  cases m with
  | none =>
    simpa [toPyVal, checkLikelyMonth] using h.symm
  | some n =>
    simp only [toPyVal, checkLikelyMonth] at h
    split at h
    · exact absurd h (by simp)
    · simpa using h.symm

theorem checkLikelyDay_toPyVal_ok (d r : Option Int)
    (h : checkLikelyDay (toPyVal d) = .ok r) : r = d := by
  cases d with
  | none =>
    simpa [toPyVal, checkLikelyDay] using h.symm
  | some n =>
    simp only [toPyVal, checkLikelyDay] at h
    split at h
    · exact absurd h (by simp)
    · simpa using h.symm

theorem mkFlexibleDate_ok_fields {y m d : Option Int} {fd : FlexibleDate}
    (h : mkFlexibleDate (toPyVal y) (toPyVal m) (toPyVal d) = .ok fd) :
    fd.likelyYear = y ∧ fd.likelyMonth = m ∧ fd.likelyDay = d := by
  simp only [mkFlexibleDate, bind, Except.bind] at h
  cases hy : checkLikelyYear (toPyVal y) with
  | error e => rw [hy] at h; exact absurd h (by simp)
  | ok y' =>
    rw [hy] at h
    cases hm : checkLikelyMonth (toPyVal m) with
    | error e => rw [hm] at h; exact absurd h (by simp)
    | ok m' =>
      rw [hm] at h
      cases hd : checkLikelyDay (toPyVal d) with
      | error e => rw [hd] at h; exact absurd h (by simp)
      | ok d' =>
        rw [hd] at h
        simp only [pure, Except.pure, Except.ok.injEq] at h
        rw [← h]
        exact ⟨checkLikelyYear_toPyVal_ok y y' hy, checkLikelyMonth_toPyVal_ok m m' hm,
          checkLikelyDay_toPyVal_ok d d' hd⟩

theorem parseWithDateutil_dt (env : Env) (date : List Char) :
    ∃ y m d, (parseWithDateutil env date).1 = .dt y m d := by
  simp only [parseWithDateutil]
  split
  · exact ⟨1, 1, 1, rfl⟩
  · split
    · exact ⟨1, 1, 1, rfl⟩
    · split
      · exact ⟨1, 1, 1, rfl⟩
      · exact ⟨_, _, _, rfl⟩

theorem getCleanedCore_shape (env : Env) (date : List Char) :
    ((getCleanedCore env date).2 = 1 ∧ ∃ y, (getCleanedCore env date).1 = .ancient y)
    ∨ (∃ y m d, (getCleanedCore env date).1 = .dt y m d) := by
  simp only [getCleanedCore]
  split
  · exact Or.inl ⟨rfl, _, rfl⟩
  · split
    · exact Or.inr (parseWithDateutil_dt env _)
    · split
      · exact Or.inr (parseWithDateutil_dt env _)
      · exact Or.inr (parseWithDateutil_dt env _)

theorem buildFromParsed_day_implies_month (pn : PyDateTime × Nat) (fd : FlexibleDate)
    (hshape : (pn.2 = 1 ∧ ∃ y, pn.1 = .ancient y) ∨ (∃ y m d, pn.1 = .dt y m d))
    (h : buildFromParsed pn = .ok fd) (hd : fd.likelyDay.isSome = true) :
    fd.likelyMonth.isSome = true := by
  simp only [buildFromParsed] at h
  rcases tryExceptAllAbsent_ok_cases _ _ h with rfl | hok
  · simp at hd
  · obtain ⟨hy, hm, hdD⟩ := mkFlexibleDate_ok_fields hok
    by_cases hnf : pn.2 = 3
    · rcases hshape with ⟨h1, _⟩ | ⟨y, m, d, hdt⟩
      · omega
      · rw [hm]
        have h2 : (2 : Nat) ≤ pn.2 := by omega
        simp [h2, hdt, pdtMonth]
    · rw [hdD] at hd
      simp [hnf] at hd

/-- C9: every `FlexibleDate` that `createFlexibleDate` returns satisfies the
invariant that a present day implies a present month, for every input string
and every behaviour of the external collaborators. -/
theorem createFlexibleDate_day_implies_month (env : Env) (s : List Char)
    (fd : FlexibleDate) (h : createFlexibleDate env (.pyStr s) = .ok fd)
    (hd : fd.likelyDay.isSome = true) : fd.likelyMonth.isSome = true :=
  buildFromParsed_day_implies_month (getCleanedDateAndNumFields env s) fd
    (getCleanedCore_shape env (cleanDate env.translit s)) h hd

set_option maxHeartbeats 2000000 in
/-- Witness for C9: a concrete environment whose parser recognises one
concrete string, giving a full date, to which the theorem applies. -/
theorem createFlexibleDate_day_implies_month_witness :
    createFlexibleDate fullDateEnv (.pyStr (str "2024/08/06"))
      = .ok ⟨some 2024, some 8, some 6⟩ ∧
    ((⟨some 2024, some 8, some 6⟩ : FlexibleDate).likelyDay.isSome = true) ∧
    ((⟨some 2024, some 8, some 6⟩ : FlexibleDate).likelyMonth.isSome = true) := by
  refine ⟨rfl, rfl, ?_⟩
  exact createFlexibleDate_day_implies_month fullDateEnv (str "2024/08/06")
    ⟨some 2024, some 8, some 6⟩ rfl rfl

theorem getCleanedCore_signed4 (env : Env) (date : List Char)
    (h : signed4 date = true) :
    getCleanedCore env date = (PyDateTime.ancient (signedVal date), 1) := by
  simp only [getCleanedCore, h, if_true]

/-- C8: whenever the cleaned form of the input is exactly an optionally
minus-signed four-digit number, `_getCleanedDateAndNumFields` returns the
year-only `AncientDateTime` result immediately -- the year is the signed
numeric value, `numFields` is 1, and the month and day attributes are absent.
The right-hand side does not mention `env.parseDefault` or `env.accepts`, so
the result is produced without consulting the explicit date parser. -/
theorem getCleaned_signed4 (env : Env) (s : List Char)
    (h : signed4 (cleanDate env.translit s) = true) :
    getCleanedDateAndNumFields env s
      = (PyDateTime.ancient (signedVal (cleanDate env.translit s)), 1)
    ∧ pdtMonth (getCleanedDateAndNumFields env s).1 = none
    ∧ pdtDay (getCleanedDateAndNumFields env s).1 = none := by
  have heq : getCleanedDateAndNumFields env s
      = (PyDateTime.ancient (signedVal (cleanDate env.translit s)), 1) :=
    getCleanedCore_signed4 env (cleanDate env.translit s) h
  exact ⟨heq, by rw [heq]; rfl, by rw [heq]; rfl⟩

set_option maxHeartbeats 2000000 in
/-- Witness for C8 at the example input -1100 given in the specification. -/
theorem getCleaned_signed4_witness :
    signed4 (cleanDate pureEnv.translit (str "-1100")) = true ∧
    getCleanedDateAndNumFields pureEnv (str "-1100")
      = (PyDateTime.ancient (signedVal (cleanDate pureEnv.translit (str "-1100"))), 1)
    ∧ pdtMonth (getCleanedDateAndNumFields pureEnv (str "-1100")).1 = none
    ∧ pdtDay (getCleanedDateAndNumFields pureEnv (str "-1100")).1 = none :=
  ⟨rfl, getCleaned_signed4 pureEnv (str "-1100") rfl⟩

/-- C7 as stated fails on the code: the three-digit pattern of line 309
requires a leading zero (`^0[0-9]{2}( bc)?$`), so the bare three-digit
cleaned string "123" is not zero-padded at all.  This theorem refutes the
claim at that concrete input. -/
theorem padStep_claim_counterexample :
    ¬ (∀ ds : List Char, ds ≠ [] → ds.length ≤ 3 → ds.all Char.isDigit = true →
        padStep ds = List.replicate (4 - ds.length) '0' ++ ds ∧
        padStep (ds ++ str " bc")
          = (List.replicate (4 - ds.length) '0' ++ ds) ++ str " bc") := by
  intro hclaim
  have h := (hclaim (str "123") (by decide) (by decide) (by decide)).1
  exact absurd h (by decide)

/-- C7 amended: in `_cleanDate`, a cleaned string that is a bare one-digit or
two-digit number, or a three-digit number with a leading zero -- each
optionally followed by the BC marker -- is zero-padded on the left up to four
digits (lines 305-310); and the padded four-digit-plus-BC string then gets a
minus sign prefixed and the BC marker dropped (lines 311-314), as
`padAndSign` shows on the BC variants. -/
theorem padStep_amended :
    (∀ a < 10,
      padStep [Nat.digitChar a] = str "000" ++ [Nat.digitChar a]
      ∧ padStep ([Nat.digitChar a] ++ str " bc")
          = (str "000" ++ [Nat.digitChar a]) ++ str " bc"
      ∧ padAndSign [Nat.digitChar a] = str "000" ++ [Nat.digitChar a]
      ∧ padAndSign ([Nat.digitChar a] ++ str " bc")
          = '-' :: (str "000" ++ [Nat.digitChar a]))
    ∧ (∀ a < 10, ∀ b < 10,
      padStep [Nat.digitChar a, Nat.digitChar b]
          = str "00" ++ [Nat.digitChar a, Nat.digitChar b]
      ∧ padStep ([Nat.digitChar a, Nat.digitChar b] ++ str " bc")
          = (str "00" ++ [Nat.digitChar a, Nat.digitChar b]) ++ str " bc"
      ∧ padAndSign [Nat.digitChar a, Nat.digitChar b]
          = str "00" ++ [Nat.digitChar a, Nat.digitChar b]
      ∧ padAndSign ([Nat.digitChar a, Nat.digitChar b] ++ str " bc")
          = '-' :: (str "00" ++ [Nat.digitChar a, Nat.digitChar b]))
    ∧ (∀ b < 10, ∀ c < 10,
      padStep ['0', Nat.digitChar b, Nat.digitChar c]
          = str "0" ++ ['0', Nat.digitChar b, Nat.digitChar c]
      ∧ padStep (['0', Nat.digitChar b, Nat.digitChar c] ++ str " bc")
          = (str "0" ++ ['0', Nat.digitChar b, Nat.digitChar c]) ++ str " bc"
      ∧ padAndSign ['0', Nat.digitChar b, Nat.digitChar c]
          = str "0" ++ ['0', Nat.digitChar b, Nat.digitChar c]
      ∧ padAndSign (['0', Nat.digitChar b, Nat.digitChar c] ++ str " bc")
          = '-' :: (str "0" ++ ['0', Nat.digitChar b, Nat.digitChar c])) := by
  refine ⟨?_, ?_, ?_⟩ <;> decide

/-- Witness for the amended C7 at the digits 7, (2, 4) and (3, 5). -/
theorem padStep_amended_witness :
    ((7 : Nat) < 10 ∧ padAndSign ([Nat.digitChar 7] ++ str " bc")
        = '-' :: (str "000" ++ [Nat.digitChar 7])) ∧
    ((2 : Nat) < 10 ∧ (4 : Nat) < 10 ∧
      padStep [Nat.digitChar 2, Nat.digitChar 4]
        = str "00" ++ [Nat.digitChar 2, Nat.digitChar 4]) ∧
    ((3 : Nat) < 10 ∧ (5 : Nat) < 10 ∧
      padAndSign ['0', Nat.digitChar 3, Nat.digitChar 5]
        = str "0" ++ ['0', Nat.digitChar 3, Nat.digitChar 5]) :=
  ⟨⟨by decide, (padStep_amended.1 7 (by decide)).2.2.2⟩,
   ⟨by decide, by decide, (padStep_amended.2.1 2 (by decide) 4 (by decide)).1⟩,
   ⟨by decide, by decide, (padStep_amended.2.2 3 (by decide) 5 (by decide)).2.2.1⟩⟩

theorem tupLe_refl (p : Nat × Nat) : tupLe p p := Or.inr ⟨rfl, le_refl _⟩

theorem tupLe_trans {p q r : Nat × Nat} (h1 : tupLe p q) (h2 : tupLe q r) : tupLe p r := by
  unfold tupLe at *
  omega

theorem tupLt_tupLe {p q : Nat × Nat} (h : tupLt p q = true) : tupLe p q := by
  simp [tupLt] at h
  unfold tupLe
  omega

theorem not_tupLt_tupLe {p q : Nat × Nat} (h : ¬ tupLt p q = true) : tupLe q p := by
  simp [tupLt] at h
  unfold tupLe
  omega

theorem tupLe_antisymm {p q : Nat × Nat} (h1 : tupLe p q) (h2 : tupLe q p) : p = q := by
  obtain ⟨p1, p2⟩ := p
  obtain ⟨q1, q2⟩ := q
  simp only [tupLe] at h1 h2
  simp only [Prod.mk.injEq]
  omega

theorem foldKeyMax : ∀ (xs : List (Combo × (Nat × Nat))) (b : Nat × Nat),
    (xs.foldl (fun m p => if tupLt m p.2 then p.2 else m) b = b
      ∨ ∃ p, p ∈ xs ∧ xs.foldl (fun m p => if tupLt m p.2 then p.2 else m) b = p.2)
    ∧ tupLe b (xs.foldl (fun m p => if tupLt m p.2 then p.2 else m) b)
    ∧ ∀ p ∈ xs, tupLe p.2 (xs.foldl (fun m p => if tupLt m p.2 then p.2 else m) b) := by
  intro xs
  induction xs with
  | nil =>
    intro b
    exact ⟨Or.inl rfl, tupLe_refl b, by simp⟩
  | cons q xs ih =>
    intro b
    simp only [List.foldl_cons]
    by_cases hb : tupLt b q.2 = true
    · rw [if_pos hb]
      obtain ⟨hmem, hble, hub⟩ := ih q.2
      refine ⟨?_, tupLe_trans (tupLt_tupLe hb) hble, ?_⟩
      · rcases hmem with he | ⟨p, hp, he⟩
        · exact Or.inr ⟨q, List.mem_cons_self q xs, he⟩
        · exact Or.inr ⟨p, List.mem_cons_of_mem q hp, he⟩
      · intro p hp
        rcases List.mem_cons.mp hp with rfl | hp'
        · exact hble
        · exact hub p hp'
    · rw [if_neg hb]
      obtain ⟨hmem, hble, hub⟩ := ih b
      refine ⟨?_, hble, ?_⟩
      · rcases hmem with he | ⟨p, hp, he⟩
        · exact Or.inl he
        · exact Or.inr ⟨p, List.mem_cons_of_mem q hp, he⟩
      · intro p hp
        rcases List.mem_cons.mp hp with rfl | hp'
        · exact tupLe_trans (not_tupLt_tupLe hb) hble
        · exact hub p hp'

theorem scores_filter (combos : List Combo) (q : Nat × Nat) :
    ((combos.map (fun c => (c, keyFunc c))).filter (fun p => p.2 = q)).map Prod.fst
      = combos.filter (fun c => decide (keyFunc c = q)) := by
  rw [List.filter_map, List.map_map]
  have h1 : (Prod.fst ∘ fun c : Combo => (c, keyFunc c)) = id := by
    funext c
    rfl
  rw [h1, List.map_id]
  apply List.filter_congr
  intro c _
  rfl

theorem comboStep_length (l : List Combo) (i j : Nat) :
    (comboStep l i j).length = l.length := by
  simp [comboStep]

theorem comboStep_getD_ne (l : List Combo) (i j k : Nat) (hik : i ≠ k) (hjk : j ≠ k) :
    (comboStep l i j).getD k emptyCombo = l.getD k emptyCombo := by
  simp [comboStep, List.getD, List.getElem?_set_ne hjk, List.getElem?_set_ne hik]

theorem reconcilePair_empty : reconcilePair emptyCombo emptyCombo = emptyCombo := by
  decide

theorem comboStep_getD_zero (l : List Combo) (s : Nat) (hs : s ≠ 0) :
    (comboStep l 0 s).getD 0 emptyCombo
      = reconcilePair (l.getD 0 emptyCombo) (l.getD s emptyCombo) := by
  cases l with
  | nil =>
    have h1 : comboStep [] 0 s = [] := by simp [comboStep]
    rw [h1]
    exact reconcilePair_empty.symm
  | cons x xs =>
    simp only [comboStep, List.getD, List.get?_eq_getElem?]
    rw [List.getElem?_set_ne hs, List.getElem?_set_self (by simp)]
    rfl

theorem go_mem : ∀ (c s j : Nat), j ∈ pyRange.go s c → s ≤ j ∧ j < s + c := by
  intro c
  induction c with
  | zero =>
    intro s j h
    simp [pyRange.go] at h
  | succ c ih =>
    intro s j h
    simp only [pyRange.go, List.mem_cons] at h
    rcases h with rfl | h
    · omega
    · have := ih (s + 1) j h
      omega

theorem inner_loop_zero : ∀ (c s : Nat) (l : List Combo), 1 ≤ s →
    (((pyRange.go s c).foldl (fun acc j => comboStep acc 0 j) l).getD 0 emptyCombo
       = ((pyRange.go s c).map (fun j => l.getD j emptyCombo)).foldl reconcilePair
           (l.getD 0 emptyCombo))
    ∧ (∀ k, s + c ≤ k →
        ((pyRange.go s c).foldl (fun acc j => comboStep acc 0 j) l).getD k emptyCombo
          = l.getD k emptyCombo)
    ∧ ((pyRange.go s c).foldl (fun acc j => comboStep acc 0 j) l).length = l.length := by
  intro c
  induction c with
  | zero =>
    intro s l hs
    exact ⟨rfl, fun k _ => rfl, rfl⟩
  | succ c ih =>
    intro s l hs
    simp only [pyRange.go, List.foldl_cons, List.map_cons]
    obtain ⟨ih1, ih2, ih3⟩ := ih (s + 1) (comboStep l 0 s) (by omega)
    refine ⟨?_, ?_, ?_⟩
    · have hmap : (pyRange.go (s + 1) c).map (fun j => (comboStep l 0 s).getD j emptyCombo)
          = (pyRange.go (s + 1) c).map (fun j => l.getD j emptyCombo) := by
        apply List.map_eq_map_iff.mpr
        intro j hj
        have hm := go_mem c (s + 1) j hj
        exact comboStep_getD_ne l 0 s j (by omega) (by omega)
      rw [ih1, hmap, comboStep_getD_zero l s (by omega)]
    · intro k hk
      rw [ih2 k (by omega), comboStep_getD_ne l 0 s k (by omega) (by omega)]
    · rw [ih3, comboStep_length]

theorem inner_loop_pres : ∀ (c s i : Nat) (l : List Combo), i ≠ 0 → 1 ≤ s →
    (((pyRange.go s c).foldl (fun acc j => comboStep acc i j) l).getD 0 emptyCombo
      = l.getD 0 emptyCombo) := by
  intro c
  induction c with
  | zero =>
    intro s i l _ _
    rfl
  | succ c ih =>
    intro s i l hi hs
    simp only [pyRange.go, List.foldl_cons]
    rw [ih (s + 1) i (comboStep l i s) hi (by omega),
      comboStep_getD_ne l i s 0 hi (by omega)]

theorem outer_loop_pres : ∀ (idxs : List Nat) (n : Nat) (l : List Combo),
    (∀ i ∈ idxs, i ≠ 0) →
    ((idxs.foldl (fun acc i => (pyRange (i + 1) n).foldl
        (fun acc2 j => comboStep acc2 i j) acc) l).getD 0 emptyCombo)
      = l.getD 0 emptyCombo := by
  intro idxs
  induction idxs with
  | nil =>
    intro n l _
    rfl
  | cons i idxs ih =>
    intro n l hall
    simp only [List.foldl_cons]
    rw [ih n _ (fun x hx => hall x (List.mem_cons_of_mem i hx))]
    exact inner_loop_pres (n - (i + 1)) (i + 1) i l
      (hall i (List.mem_cons_self i idxs)) (by omega)

theorem map_getD_go : ∀ (bs : List Combo) (s : Nat) (l : List Combo), l.drop s = bs →
    (pyRange.go s bs.length).map (fun j => l.getD j emptyCombo) = bs := by
  intro bs
  induction bs with
  | nil =>
    intro s l _
    rfl
  | cons x bs ih =>
    intro s l h
    simp only [List.length_cons, pyRange.go, List.map_cons]
    have hx : l.getD s emptyCombo = x := by
      have h0 : (l.drop s).getD 0 emptyCombo = x := by
        rw [h]
        rfl
      rw [← h0]
      simp [List.getD, List.getElem?_drop]
    have hdrop : l.drop (s + 1) = bs := by
      have h2 : (l.drop s).drop 1 = bs := by
        rw [h]
        rfl
      rw [List.drop_drop] at h2
      exact h2
    rw [hx, ih (s + 1) l hdrop]

theorem headD_eq_getD (l : List Combo) (d : Combo) : l.headD d = l.getD 0 d := by
  cases l <;> rfl

theorem reconcileLoop_headD (b : Combo) (bs : List Combo) :
    (reconcileLoop (b :: bs)).headD emptyCombo = bs.foldl reconcilePair b := by
  rw [headD_eq_getD]
  simp only [reconcileLoop]
  have hr : pyRange 0 (b :: bs).length = 0 :: pyRange.go 1 bs.length := rfl
  rw [hr, List.foldl_cons]
  have hr2 : pyRange (0 + 1) (b :: bs).length = pyRange.go 1 bs.length := rfl
  rw [hr2]
  rw [outer_loop_pres (pyRange.go 1 bs.length) (b :: bs).length _
    (fun i hi => by have := go_mem bs.length 1 i hi; omega)]
  obtain ⟨h1, _, _⟩ := inner_loop_zero bs.length 1 (b :: bs) (by omega)
  rw [h1, map_getD_go bs 1 (b :: bs) rfl]
  rfl

theorem selectBestCombo_eq_spec (combos : List Combo) (h : combos ≠ []) :
    selectBestCombo combos = selectBestSpec combos := by
  obtain ⟨c0, cs, rfl⟩ : ∃ c0 cs, combos = c0 :: cs := by
    cases combos with
    | nil => exact absurd rfl h
    | cons c0 cs => exact ⟨c0, cs, rfl⟩
  have hM := foldKeyMax (cs.map (fun c => (c, keyFunc c))) (keyFunc c0)
  set M := (cs.map (fun c => (c, keyFunc c))).foldl
    (fun m p => if tupLt m p.2 then p.2 else m) (keyFunc c0) with hMdef
  obtain ⟨hmem, hble, hub⟩ := hM
  have hpymax : pyMaxTup ((c0 :: cs).map (fun c => (c, keyFunc c))) = M := by
    simp only [List.map_cons, pyMaxTup]
  have hubAll : ∀ c' ∈ c0 :: cs, tupLe (keyFunc c') M := by
    intro c' hc'
    rcases List.mem_cons.mp hc' with rfl | hc''
    · exact hble
    · exact hub (c', keyFunc c') (List.mem_map_of_mem _ hc'')
  have hatt : ∃ cm, cm ∈ c0 :: cs ∧ keyFunc cm = M := by
    rcases hmem with he | ⟨p, hp, he⟩
    · exact ⟨c0, List.mem_cons_self c0 cs, he.symm⟩
    · obtain ⟨c'', hc'', hp2⟩ := List.mem_map.mp hp
      refine ⟨c'', List.mem_cons_of_mem c0 hc'', ?_⟩
      rw [← hp2] at he
      exact he.symm
  have hfe : (c0 :: cs).filter (fun c => decide (keyFunc c = M))
      = (c0 :: cs).filter
          (fun c => decide (∀ c' ∈ c0 :: cs, tupLe (keyFunc c') (keyFunc c))) := by
    apply List.filter_congr
    intro c hc
    apply decide_eq_decide.mpr
    constructor
    · intro hck c' hc'
      rw [hck]
      exact hubAll c' hc'
    · intro hmax
      refine tupLe_antisymm (hubAll c hc) ?_
      obtain ⟨cm, hcm, hkm⟩ := hatt
      rw [← hkm]
      exact hmax cm hcm
  obtain ⟨cm, hcm, hkm⟩ := hatt
  have hbne : (c0 :: cs).filter (fun c => decide (keyFunc c = M)) ≠ [] := by
    intro hempty
    have hmm : cm ∈ (c0 :: cs).filter (fun c => decide (keyFunc c = M)) :=
      List.mem_filter.mpr ⟨hcm, by simp [hkm]⟩
    rw [hempty] at hmm
    exact absurd hmm (List.not_mem_nil cm)
  obtain ⟨b, bs, hbbs⟩ : ∃ b bs, (c0 :: cs).filter
      (fun c => decide (∀ c' ∈ c0 :: cs, tupLe (keyFunc c') (keyFunc c))) = b :: bs := by
    rw [← hfe]
    cases hx : (c0 :: cs).filter (fun c => decide (keyFunc c = M)) with
    | nil => exact absurd hx hbne
    | cons b bs => exact ⟨b, bs, rfl⟩
  simp only [selectBestCombo, hpymax, scores_filter]
  rw [hfe, hbbs, reconcileLoop_headD]
  simp only [selectBestSpec, hbbs]

theorem foldl_ne_nil {α : Type} (f : List Combo → α → List Combo)
    (hf : ∀ acc x, acc ≠ [] → f acc x ≠ []) :
    ∀ (l : List α) (init : List Combo), init ≠ [] → l.foldl f init ≠ [] := by
  intro l
  induction l with
  | nil =>
    intro init hinit
    exact hinit
  | cons x l ih =>
    intro init hinit
    exact ih (f init x) (hf init x hinit)

theorem setAdd_ne_nil (l : List Combo) (c : Combo) : setAdd l c ≠ [] := by
  unfold setAdd
  split
  · rename_i hmem
    intro he
    rw [he] at hmem
    exact absurd hmem (List.not_mem_nil c)
  · simp

theorem gleanCombos_ne_nil (env : Env) (text : List Char) : gleanCombos env text ≠ [] := by
  simp only [gleanCombos]
  apply foldl_ne_nil
  · intro acc yi hacc
    dsimp only
    apply foldl_ne_nil
    · intro acc2 mi hacc2
      dsimp only
      apply foldl_ne_nil
      · intro acc3 day hacc3
        dsimp only
        split
        · exact setAdd_ne_nil _ _
        · exact hacc3
      · exact setAdd_ne_nil _ _
    · exact setAdd_ne_nil _ _
  · simp

/-- C4: the selection stage of `gleanYearMonthDay` behaves exactly as
specified: among the acceptable combos, those whose (total character length,
field count) rank is maximal -- both criteria descending, length first --
are kept, the tied combos are reconciled pairwise (year survives only when
identical, month and day only when both match), and the first reconciled
combo is the result.  The pairwise double loop of the source is proved equal
to the left fold of `reconcilePair` over the tied list. -/
theorem gleanYearMonthDay_selection (env : Env) (text : List Char) :
    gleanYearMonthDay env text = selectBestSpec (gleanCombos env text) := by
  simp only [gleanYearMonthDay]
  exact selectBestCombo_eq_spec _ (gleanCombos_ne_nil env text)
